import Mathlib

/-!
# Shallow embedding of the react-lit descendants registry and navigator

This file embeds the core of the `react-lit-descendants` package:

* the descendant registry (`DescendantProvider`'s `registerDescendant` and
  `unregisterDescendant` state-update functions), and
* the keyboard-navigation traversal (`useDescendantKeyDown`'s
  `handleKeyDown` together with its inner helpers `getNextOption`,
  `getPreviousOption`, `getFirstOption`, `getLastOption`).

Modelling conventions:

* A DOM element handle is modelled as a `Nat` identity; `element : Option Nat`
  models the nullable element reference (identity equality in JS becomes
  equality of the identities).
* The opaque `...rest` payload carried through registration is modelled by a
  single `payload : Nat` field; the code never inspects it.
* `index` is an `Int`, since the source stores `-1` (from `findIndex`)
  transiently and callers may pin arbitrary numeric indices.
* The external comes-before comparator
  `item.element.compareDocumentPosition(element) & Node.DOCUMENT_POSITION_PRECEDING`
  is abstracted by a function `precedes : Nat → Nat → Bool`, where
  `precedes a b` means "a comes before b in document order".
* JavaScript's `Array.prototype.sort` with comparator `(a, b) => a.index - b.index`
  is a stable ascending sort by `index`; it is modelled by Mathlib's stable
  `List.insertionSort`.
-/

/-- A descendant record `{ element, index, ...rest }`. -/
structure Descendant where
  element : Option Nat
  index : Int
  payload : Nat
deriving DecidableEq, Repr, Inhabited

/-- The reindex pass `newItems.map((item, index) => ({ ...item, index }))`,
written with an explicit position accumulator `n`. -/
def reindexFrom (n : Nat) : List Descendant → List Descendant
  | [] => []
  | d :: ds => { d with index := (n : Int) } :: reindexFrom (n + 1) ds

/-- `newItems.map((item, index) => ({ ...item, index }))`. -/
def reindex (l : List Descendant) : List Descendant := reindexFrom 0 l

/-- The sort relation of `newItems.sort((a, b) => a.index - b.index)`. -/
def byIndexLE (a b : Descendant) : Prop := a.index ≤ b.index

instance : DecidableRel byIndexLE := fun a b => inferInstanceAs (Decidable (a.index ≤ b.index))

instance : IsTotal Descendant byIndexLE := ⟨fun a b => Int.le_total a.index b.index⟩

instance : IsTrans Descendant byIndexLE := ⟨fun _ _ _ h h' => Int.le_trans h h'⟩

/-- The predicate of
`items.findIndex(item => { if (!item.element || !element) return false;
 return Boolean(item.element.compareDocumentPosition(element) & Node.DOCUMENT_POSITION_PRECEDING); })`:
true when the new `element` comes before `item.element` in document order
(the `element` argument is already known non-null at this point). -/
def elementPrecedes (precedes : Nat → Nat → Bool) (element : Nat) (item : Descendant) : Bool :=
  match item.element with
  | none => false
  | some itemElement => precedes element itemElement

/-- `DescendantProvider`'s `registerDescendant` state-update function.
Arguments: the comes-before comparator, the destructured
`{ element, index: explicitIndex, ...rest }` of the registered descendant,
and the current `items` collection. Returns the next collection. -/
def registerDescendant (precedes : Nat → Nat → Bool) (element : Option Nat)
    (explicitIndex : Option Int) (payload : Nat) (items : List Descendant) :
    List Descendant :=
  match element with
  | none => items
  | some element =>
    match explicitIndex with
    | some explicitIndex =>
      -- `newItems = [...items, { ...rest, element, index: explicitIndex }];
      --  return newItems.sort((a, b) => a.index - b.index);`
      List.insertionSort byIndexLE (items ++ [⟨some element, explicitIndex, payload⟩])
    | none =>
      let newItems : List Descendant :=
        if items.length = 0 then
          [⟨some element, 0, payload⟩]
        else if (items.find? (fun item => item.element == some element)).isSome then
          items
        else
          match items.findIdx? (elementPrecedes precedes element) with
          | none => items ++ [⟨some element, -1, payload⟩]
          | some index => items.take index ++ ⟨some element, (index : Int), payload⟩ :: items.drop index
      reindex newItems

/-- `DescendantProvider`'s `unregisterDescendant` state-update function:
`if (!element) return; set(items => items.filter(item => element !== item.element));`. -/
def unregisterDescendant (element : Option Nat) (items : List Descendant) :
    List Descendant :=
  match element with
  | none => items
  | some element => items.filter (fun item => !(some element == item.element))

/-- The data-model invariant: `collection[i].index === i` for all `i`. -/
def PositionalIndex (l : List Descendant) : Prop :=
  ∀ i : Fin l.length, (l.get i).index = ((i : Nat) : Int)

instance (l : List Descendant) : Decidable (PositionalIndex l) :=
  inferInstanceAs (Decidable (∀ i : Fin l.length, (l.get i).index = ((i : Nat) : Int)))

/-- The identity-independent data of a record: everything except `index`. -/
def recordData (d : Descendant) : Option Nat × Nat := (d.element, d.payload)

/-! ## Navigator (`useDescendantKeyDown`) -/

/-- The navigation keys handled by `handleKeyDown`; `other` stands for any
key outside the handled set. -/
inductive NavKey where
  | arrowDown
  | arrowUp
  | arrowLeft
  | arrowRight
  | pageUp
  | pageDown
  | home
  | endKey
  | other
deriving DecidableEq, Repr

/-- The parts of the keyboard event `handleKeyDown` reads. -/
structure KeyEvent where
  key : NavKey
  ctrlKey : Bool
deriving DecidableEq, Repr

/-- The `orientation` option. -/
inductive NavOrientation where
  | vertical
  | horizontal
  | both
deriving DecidableEq, Repr

/-- The options consumed by `useDescendantKeyDown` that influence which
descendant is selected (the `key`/`callback` projection only post-processes
the selected record and is not modelled). -/
structure NavOptions where
  currentIndex : Option Int
  filter : Option (Descendant → Bool)
  orientation : NavOrientation
  rotate : Bool
  rtl : Bool

/-- JavaScript array access `l[i]` with a signed index: `none` models
`undefined` (out of range). -/
def jsGet (l : List Descendant) (i : Int) : Option Descendant :=
  if h : 0 ≤ i ∧ i.toNat < l.length then some (l.get ⟨i.toNat, h.2⟩) else none

/-- `const selectableDescendants = filter ? descendants.filter(filter) : descendants;`. -/
def selectableOf (descendants : List Descendant) (filter : Option (Descendant → Bool)) :
    List Descendant :=
  match filter with
  | some f => descendants.filter f
  | none => descendants

/-- `selectableDescendants.findIndex(descendant => descendant.index === currentIndex)`:
`-1` when not found, and always `-1` when `currentIndex` is `null`/`undefined`
(strict equality with a number field is then always false). -/
def selectableIndexOf (selectable : List Descendant) (currentIndex : Option Int) : Int :=
  match currentIndex with
  | none => -1
  | some currentIndex =>
    match selectable.findIdx? (fun descendant => descendant.index == currentIndex) with
    | none => -1
    | some i => (i : Int)

/-- `getFirstOption`: `selectableDescendants[0]`. Only called by `handleKeyDown`
after establishing the list is non-empty, so the default is never observed. -/
def getFirstOption (selectable : List Descendant) : Descendant :=
  selectable.headD default

/-- `getLastOption`: `selectableDescendants[selectableDescendants.length - 1]`.
Only called by `handleKeyDown` after establishing the list is non-empty. -/
def getLastOption (selectable : List Descendant) : Descendant :=
  selectable.getLastD default

/-- `getNextOption`. `index` is `currentIndex ?? -1`; `selectableIndex` may be
`-1`, in which case the non-wrapping branch reads `selectableDescendants[-1]`
(JS `undefined`, here `none`). The modulus is `Int.emod`, which agrees with
JS `%` on every dividend this code produces. -/
def getNextOption (selectable : List Descendant) (index selectableIndex : Int)
    (rotate : Bool) : Option Descendant :=
  if index == (getLastOption selectable).index then
    if rotate then some (getFirstOption selectable) else jsGet selectable selectableIndex
  else
    jsGet selectable ((selectableIndex + 1) % (selectable.length : Int))

/-- `getPreviousOption`, symmetric to `getNextOption`. -/
def getPreviousOption (selectable : List Descendant) (index selectableIndex : Int)
    (rotate : Bool) : Option Descendant :=
  if index == (getFirstOption selectable).index then
    if rotate then some (getLastOption selectable) else jsGet selectable selectableIndex
  else
    jsGet selectable ((selectableIndex - 1 + (selectable.length : Int)) % (selectable.length : Int))

/-- `handleKeyDown`. The result models the callback invocation:
`none` = the handler returned without calling `callback` (unhandled key,
orientation gate closed, or empty selectable subset); `some d` = `callback`
was invoked with selection `d`, where `d = none` models JS `undefined`
(an out-of-range array read). The `key === 'option'` projection of the
selected record is not modelled; the selection itself is returned. -/
def handleKeyDown (descendants : List Descendant) (opts : NavOptions)
    (event : KeyEvent) : Option (Option Descendant) :=
  let index : Int := opts.currentIndex.getD (-1)
  let selectable := selectableOf descendants opts.filter
  if selectable.length = 0 then
    none
  else
    let selectableIndex := selectableIndexOf selectable opts.currentIndex
    let vertical := opts.orientation = NavOrientation.vertical ∨ opts.orientation = NavOrientation.both
    let horizontal := opts.orientation = NavOrientation.horizontal ∨ opts.orientation = NavOrientation.both
    match event.key with
    | NavKey.arrowDown =>
      if vertical then some (getNextOption selectable index selectableIndex opts.rotate) else none
    | NavKey.arrowUp =>
      if vertical then some (getPreviousOption selectable index selectableIndex opts.rotate) else none
    | NavKey.arrowLeft =>
      if horizontal then
        some ((if opts.rtl then getNextOption else getPreviousOption)
          selectable index selectableIndex opts.rotate)
      else none
    | NavKey.arrowRight =>
      if horizontal then
        some ((if opts.rtl then getPreviousOption else getNextOption)
          selectable index selectableIndex opts.rotate)
      else none
    | NavKey.pageUp =>
      some (if event.ctrlKey then
              getPreviousOption selectable index selectableIndex opts.rotate
            else some (getFirstOption selectable))
    | NavKey.home => some (some (getFirstOption selectable))
    | NavKey.pageDown =>
      some (if event.ctrlKey then
              getNextOption selectable index selectableIndex opts.rotate
            else some (getLastOption selectable))
    | NavKey.endKey => some (some (getLastOption selectable))
    | NavKey.other => none

/-! ## Lemmas about the reindex pass -/

theorem reindexFrom_length (n : Nat) (l : List Descendant) :
    (reindexFrom n l).length = l.length := by
  induction l generalizing n with
  | nil => rfl
  | cons d ds ih => simp [reindexFrom, ih]

theorem reindexFrom_index (n : Nat) (l : List Descendant) (i : Nat)
    (h : i < (reindexFrom n l).length) :
    ((reindexFrom n l).get ⟨i, h⟩).index = ((n + i : Nat) : Int) := by
  induction l generalizing n i with
  | nil => simp [reindexFrom] at h
  | cons d ds ih =>
    cases i with
    | zero => simp [reindexFrom]
    | succ k =>
      simp only [reindexFrom, List.get_cons_succ]
      exact (ih (n + 1) k _).trans (by omega)

theorem positionalIndex_reindex (l : List Descendant) : PositionalIndex (reindex l) := by
  intro i
  simpa using reindexFrom_index 0 l i i.isLt

theorem reindexFrom_map_recordData (n : Nat) (l : List Descendant) :
    (reindexFrom n l).map recordData = l.map recordData := by
  induction l generalizing n with
  | nil => rfl
  | cons d ds ih => simp [reindexFrom, recordData, ih]

theorem reindexFrom_eq_self (n : Nat) (l : List Descendant)
    (h : ∀ (i : Nat) (hi : i < l.length), (l.get ⟨i, hi⟩).index = ((n + i : Nat) : Int)) :
    reindexFrom n l = l := by
  induction l generalizing n with
  | nil => rfl
  | cons d ds ih =>
    have h0 : d.index = (n : Int) := by simpa using h 0 (by simp)
    have hrec : reindexFrom (n + 1) ds = ds := by
      apply ih
      intro i hi
      have hs : i + 1 < (d :: ds).length := by simpa using Nat.succ_lt_succ hi
      have := h (i + 1) hs
      rw [List.get_cons_succ] at this
      exact this.trans (by omega)
    cases d with
    | mk el idx pay =>
      simp only [reindexFrom, hrec]
      simp at h0
      rw [h0]

theorem reindex_eq_self_of_positional (l : List Descendant) (h : PositionalIndex l) :
    reindex l = l := by
  apply reindexFrom_eq_self
  intro i hi
  simpa using h ⟨i, hi⟩

/-- Any registration without an explicit index (and with a non-null element)
ends in the reindex pass, so its result always satisfies the invariant. -/
theorem positionalIndex_register (precedes : Nat → Nat → Bool) (e : Nat) (pay : Nat)
    (items : List Descendant) :
    PositionalIndex (registerDescendant precedes (some e) none pay items) := by
  simp only [registerDescendant]
  exact positionalIndex_reindex _

theorem registerOnly_invariant_aux (precedes : Nat → Nat → Bool)
    (ops : List (Option Nat × Nat)) :
    ∀ s : List Descendant, PositionalIndex s →
      PositionalIndex (ops.foldl
        (fun t op => registerDescendant precedes op.1 none op.2 t) s) := by
  induction ops with
  | nil => exact fun s hs => hs
  | cons op rest ih =>
    intro s hs
    simp only [List.foldl_cons]
    apply ih
    match op with
    | (none, pay) => exact hs
    | (some e, pay) => exact positionalIndex_register precedes e pay s

/-- **C1** (amended): for every sequence of `registerDescendant` operations
*without explicit indices* starting from the empty collection, after each
operation the invariant `collection[i].index === i` holds.  Each operation is
a pair `(element, payload)`; since every prefix of a sequence is itself a
sequence, quantifying over all sequences covers "after each operation".
The original claim, which also allowed `unregisterDescendant` (and, reading
"registerDescendant" broadly, explicit-index registration), is refuted by
`c1_counterexample`: unregistration only filters and never reindexes. -/
theorem c1_register_sequences_keep_positional_index (precedes : Nat → Nat → Bool)
    (ops : List (Option Nat × Nat)) :
    PositionalIndex (ops.foldl
      (fun s op => registerDescendant precedes op.1 none op.2 s) []) := by
  apply registerOnly_invariant_aux
  intro i
  exact absurd i.isLt (by simp)

/-- **C1** counterexample: register elements `1` then `2` (document order
`1 < 2`), then unregister `1`.  `unregisterDescendant` merely filters, so the
survivor keeps index `1` at position `0` and `collection[0].index ≠ 0`. -/
theorem c1_counterexample :
    ¬ PositionalIndex (unregisterDescendant (some 1)
      ([((some 1 : Option Nat), 0), ((some 2 : Option Nat), 0)].foldl
        (fun s op => registerDescendant Nat.blt op.1 none op.2 s) [])) := by
  decide

/-- **C5** counterexample: the element `1` is already registered, but its
record carries the stale index `1` (reachable after an unregistration).
Re-registering it runs the reindex map, which rewrites the index field to
`0`: the collection's contents change, so re-registration is not a strict
no-op on every collection. -/
theorem c5_counterexample :
    registerDescendant Nat.blt (some 1) none 0 [⟨some 1, 1, 0⟩] ≠ [⟨some 1, 1, 0⟩] := by
  decide

/-- **C5** (amended): re-registering an already-present element without an
explicit index never changes the collection's length, order, elements or
payloads; the only possible change is that each record's `index` field is
overwritten with its position (the branch still ends in the reindex map).
In particular, on any collection already satisfying `collection[i].index === i`
the call is a strict no-op, and the result always satisfies that invariant. -/
theorem c5_register_present_idempotent (precedes : Nat → Nat → Bool) (e : Nat)
    (pay : Nat) (items : List Descendant)
    (hfound : (items.find? (fun item => item.element == some e)).isSome = true) :
    (PositionalIndex items →
      registerDescendant precedes (some e) none pay items = items) ∧
    (registerDescendant precedes (some e) none pay items).map recordData
      = items.map recordData ∧
    PositionalIndex (registerDescendant precedes (some e) none pay items) := by
  have hne : ¬ items.length = 0 := by
    intro h
    rw [List.length_eq_zero] at h
    subst h
    simp [List.find?] at hfound
  have hreg : registerDescendant precedes (some e) none pay items = reindex items := by
    simp [registerDescendant, hne, hfound]
  refine ⟨fun hinv => ?_, ?_, ?_⟩
  · rw [hreg]
    exact reindex_eq_self_of_positional items hinv
  · rw [hreg]
    exact reindexFrom_map_recordData 0 items
  · rw [hreg]
    exact positionalIndex_reindex items

/-- **C5** witness: on a well-indexed singleton collection, re-registering
its element (with a different payload) is a strict no-op. -/
theorem c5_witness :
    registerDescendant Nat.blt (some 1) none 7 [⟨some 1, 0, 3⟩] = [⟨some 1, 0, 3⟩] :=
  (c5_register_present_idempotent Nat.blt 1 7 [⟨some 1, 0, 3⟩] (by decide)).1 (by decide)

/-- **C9**: every abnormal input degrades to a no-op: registering a null
element leaves the collection unchanged; unregistering a null element or an
absent element leaves the collection unchanged; a key press whose filtered
selectable subset is empty, or whose key is not one of the eight handled
navigation keys, invokes no callback (result `none`). -/
theorem c9_abnormal_inputs_noop
    (precedes : Nat → Nat → Bool) (ei : Option Int) (pay : Nat)
    (items : List Descendant) (e : Nat)
    (hnp : ∀ d ∈ items, d.element ≠ some e)
    (descendants : List Descendant) (opts : NavOptions) (event : KeyEvent)
    (hempty : selectableOf descendants opts.filter = [])
    (descendantsB : List Descendant) (optsB : NavOptions) (ctrl : Bool) :
    registerDescendant precedes none ei pay items = items ∧
    unregisterDescendant none items = items ∧
    unregisterDescendant (some e) items = items ∧
    handleKeyDown descendants opts event = none ∧
    handleKeyDown descendantsB optsB ⟨NavKey.other, ctrl⟩ = none := by
  refine ⟨rfl, rfl, ?_, ?_, ?_⟩
  · simp only [unregisterDescendant]
    apply List.filter_eq_self.mpr
    intro d hd
    simp only [Bool.not_eq_true', beq_eq_false_iff_ne]
    exact fun hh => hnp d hd hh.symm
  · simp [handleKeyDown, hempty]
  · by_cases h : (selectableOf descendantsB optsB.filter).length = 0 <;>
      simp [handleKeyDown, h]

/-- **C9** witness: concrete instances of each no-op case. -/
theorem c9_witness :
    registerDescendant Nat.blt none none 0 [⟨some 2, 0, 0⟩] = [⟨some 2, 0, 0⟩] ∧
    unregisterDescendant none [⟨some 2, 0, 0⟩] = [⟨some 2, 0, 0⟩] ∧
    unregisterDescendant (some 1) [⟨some 2, 0, 0⟩] = [⟨some 2, 0, 0⟩] ∧
    handleKeyDown [⟨some 2, 0, 0⟩]
      ⟨some 0, some (fun _ => false), NavOrientation.vertical, true, false⟩
      ⟨NavKey.arrowDown, false⟩ = none ∧
    handleKeyDown [] ⟨none, none, NavOrientation.vertical, true, false⟩
      ⟨NavKey.other, false⟩ = none :=
  c9_abnormal_inputs_noop Nat.blt none 0 [⟨some 2, 0, 0⟩] 1 (by decide)
    [⟨some 2, 0, 0⟩]
    ⟨some 0, some (fun _ => false), NavOrientation.vertical, true, false⟩
    ⟨NavKey.arrowDown, false⟩ rfl [] ⟨none, none, NavOrientation.vertical, true, false⟩ false

/-- **C10**: `unregisterDescendant` is a pure removal: the result is a
sublist of the input (every surviving record keeps its `index`, its payload
and its relative order), a null element removes nothing, and for a non-null
element exactly the identity-matching records disappear while every other
record survives with unchanged multiplicity. -/
theorem c10_unregister_frame (items : List Descendant) :
    (∀ el : Option Nat, List.Sublist (unregisterDescendant el items) items) ∧
    unregisterDescendant none items = items ∧
    ∀ (e : Nat) (d : Descendant),
      (unregisterDescendant (some e) items).count d =
        if d.element = some e then 0 else items.count d := by
  refine ⟨?_, rfl, ?_⟩
  · intro el
    match el with
    | none => exact List.Sublist.refl items
    | some e => exact List.filter_sublist items
  · intro e d
    by_cases h : d.element = some e
    · simp only [unregisterDescendant]
      rw [if_pos h, List.count_eq_zero]
      intro hmem
      rw [List.mem_filter] at hmem
      simp [h] at hmem
    · simp only [unregisterDescendant]
      rw [if_neg h]
      apply List.count_filter
      simp only [Bool.not_eq_true', beq_eq_false_iff_ne]
      exact fun hh => h hh.symm

/-- **C2** counterexample: registering element `1` with explicit index `0`
into a collection that already contains element `1` does *not* replace the
existing record: the branch appends unconditionally and sorts, so the result
holds two records with the same element. -/
theorem c2_counterexample :
    ¬ ((registerDescendant Nat.blt (some 1) (some 0) 0
        [⟨some 1, 0, 0⟩]).map Descendant.element).Nodup := by
  decide

/-- **C2** (amended): with an explicit (pinned) index and a non-null element,
`registerDescendant` appends the new record unconditionally (no replacement
of a record with the same element, so duplicates can result) and returns the
whole collection stably re-sorted by `index` ascending; no reindex pass runs
in this branch. -/
theorem c2_register_explicit_appends_and_sorts (precedes : Nat → Nat → Bool)
    (e : Nat) (ei : Int) (pay : Nat) (items : List Descendant) :
    (registerDescendant precedes (some e) (some ei) pay items).Perm
        (items ++ [⟨some e, ei, pay⟩]) ∧
    List.Sorted byIndexLE (registerDescendant precedes (some e) (some ei) pay items) := by
  constructor
  · exact List.perm_insertionSort byIndexLE _
  · exact List.sorted_insertionSort byIndexLE _

/-- If `p` is false exactly at position `i`, filtering removes exactly the
record at position `i`. -/
theorem filter_eq_take_append_drop (p : Descendant → Bool) (l : List Descendant) :
    ∀ (i : Nat) (h : i < l.length),
      p (l.get ⟨i, h⟩) = false →
      (∀ (j : Fin l.length), (j : Nat) ≠ i → p (l.get j) = true) →
      l.filter p = l.take i ++ l.drop (i + 1) := by
  induction l with
  | nil =>
    intro i h
    exact absurd h (by simp)
  | cons x xs ih =>
    intro i h hpi hothers
    cases i with
    | zero =>
      have hx : p x = false := hpi
      have hxs : xs.filter p = xs := by
        apply List.filter_eq_self.mpr
        intro a ha
        obtain ⟨⟨k, hk⟩, rfl⟩ := List.mem_iff_get.mp ha
        have := hothers ⟨k + 1, Nat.succ_lt_succ hk⟩ (by simp)
        rwa [List.get_cons_succ] at this
      simp [List.filter_cons, hx, hxs]
    | succ k =>
      have hx : p x = true := hothers ⟨0, by simp⟩ (by simp)
      rw [List.get_cons_succ] at hpi
      have hrec := ih k (Nat.lt_of_succ_lt_succ h) hpi (fun j hj => by
        have := hothers ⟨(j : Nat) + 1, Nat.succ_lt_succ j.isLt⟩ (by simpa using hj)
        rwa [List.get_cons_succ] at this)
      simp [List.filter_cons, hx, hrec]

/-- Under the invariant, the index column is exactly `0, 1, ..., n-1`. -/
theorem map_index_of_positional (l : List Descendant) (h : PositionalIndex l) :
    l.map Descendant.index = (List.range l.length).map (Nat.cast : Nat → Int) := by
  apply List.ext_getElem
  · rw [List.length_map, List.length_map, List.length_range]
  · intro n h₁ h₂
    rw [List.getElem_map, List.getElem_map, List.getElem_range]
    have := h ⟨n, by simpa using h₁⟩
    simpa using this

theorem range_drop (n i : Nat) : (List.range n).drop i = List.range' i (n - i) := by
  apply List.ext_getElem
  · simp
  · intro j h₁ h₂
    simp [List.getElem_drop, List.getElem_range, List.getElem_range']

/-- **C4** counterexample: on the well-indexed collection
`[1@0, 2@1, 3@2]`, unregistering the middle element `2` removes its record
but does *not* re-index: the survivor `3` keeps index `2` at position `1`,
so the result violates `collection[i].index === i`. -/
theorem c4_counterexample :
    unregisterDescendant (some 2) [⟨some 1, 0, 0⟩, ⟨some 2, 1, 0⟩, ⟨some 3, 2, 0⟩]
        = [⟨some 1, 0, 0⟩, ⟨some 3, 2, 0⟩] ∧
    ¬ PositionalIndex (unregisterDescendant (some 2)
        [⟨some 1, 0, 0⟩, ⟨some 2, 1, 0⟩, ⟨some 3, 2, 0⟩]) := by
  decide

/-- **C4** (amended): on a collection satisfying `collection[i].index === i`
whose position `i` holds the unique record with element `e`,
`unregisterDescendant` removes exactly that record and leaves every other
record untouched; the trailing records keep their *old* index fields
(`i+1, ..., n-1`, each one more than its new position), so whenever the
removed position was not the last one the result violates the invariant
(no eager re-index happens; the gap closes only at the next registration). -/
theorem c4_unregister_middle_lazy (items : List Descendant) (e : Nat) (i : Nat)
    (h : i < items.length)
    (he : (items.get ⟨i, h⟩).element = some e)
    (huniq : ∀ (j : Fin items.length), (j : Nat) ≠ i → (items.get j).element ≠ some e)
    (hinv : PositionalIndex items) :
    unregisterDescendant (some e) items = items.take i ++ items.drop (i + 1) ∧
    (unregisterDescendant (some e) items).map Descendant.index
      = ((List.range i).map (Nat.cast : Nat → Int))
        ++ ((List.range' (i + 1) (items.length - (i + 1))).map (Nat.cast : Nat → Int)) ∧
    (i + 1 < items.length → ¬ PositionalIndex (unregisterDescendant (some e) items)) := by
  have hfrm : unregisterDescendant (some e) items = items.take i ++ items.drop (i + 1) := by
    simp only [unregisterDescendant]
    apply filter_eq_take_append_drop _ items i h
    · simp only [Bool.not_eq_false', beq_iff_eq]
      exact he.symm
    · intro j hj
      simp only [Bool.not_eq_true', beq_eq_false_iff_ne]
      exact fun hh => huniq j hj hh.symm
  refine ⟨hfrm, ?_, ?_⟩
  · have hmap := map_index_of_positional items hinv
    rw [hfrm, List.map_append, List.map_take, List.map_drop, hmap,
      ← List.map_take, ← List.map_drop, List.take_range, range_drop,
      Nat.min_eq_left (Nat.le_of_lt h)]
  · intro hlt hpos
    rw [hfrm] at hpos
    have hlen : (items.take i ++ items.drop (i + 1)).length = items.length - 1 := by
      simp only [List.length_append, List.length_take, List.length_drop]
      omega
    have hi2 : i < (items.take i ++ items.drop (i + 1)).length := by
      rw [hlen]
      omega
    have htk : (items.take i).length = i := by
      simp only [List.length_take]
      omega
    have hgot : (items.take i ++ items.drop (i + 1)).get ⟨i, hi2⟩
        = items.get ⟨i + 1, hlt⟩ := by
      simp only [List.get_eq_getElem]
      rw [List.getElem_append_right htk.le]
      simp only [htk, Nat.sub_self, List.getElem_drop, Nat.add_zero]
    have h2 := hpos ⟨i, hi2⟩
    rw [hgot, hinv ⟨i + 1, hlt⟩] at h2
    simp only [Fin.val_mk] at h2
    omega

/-- **C4** witness: instantiation of the amended statement on
`[1@0, 2@1, 3@2]`, removing the middle element `2` (position `1`). -/
theorem c4_witness :
    unregisterDescendant (some 2) [⟨some 1, 0, 0⟩, ⟨some 2, 1, 0⟩, ⟨some 3, 2, 0⟩]
        = ([⟨some 1, 0, 0⟩, ⟨some 2, 1, 0⟩, ⟨some 3, 2, 0⟩] : List Descendant).take 1
          ++ ([⟨some 1, 0, 0⟩, ⟨some 2, 1, 0⟩, ⟨some 3, 2, 0⟩] : List Descendant).drop 2 ∧
    (unregisterDescendant (some 2)
        [⟨some 1, 0, 0⟩, ⟨some 2, 1, 0⟩, ⟨some 3, 2, 0⟩]).map Descendant.index
      = ((List.range 1).map (Nat.cast : Nat → Int))
        ++ ((List.range' 2 (([⟨some 1, 0, 0⟩, ⟨some 2, 1, 0⟩, ⟨some 3, 2, 0⟩] :
              List Descendant).length - 2)).map (Nat.cast : Nat → Int)) ∧
    (1 + 1 < ([⟨some 1, 0, 0⟩, ⟨some 2, 1, 0⟩, ⟨some 3, 2, 0⟩] : List Descendant).length →
      ¬ PositionalIndex (unregisterDescendant (some 2)
        [⟨some 1, 0, 0⟩, ⟨some 2, 1, 0⟩, ⟨some 3, 2, 0⟩])) :=
  c4_unregister_middle_lazy [⟨some 1, 0, 0⟩, ⟨some 2, 1, 0⟩, ⟨some 3, 2, 0⟩] 2 1
    (by decide) (by decide) (by decide) (by decide)

theorem findIdx?_eq_none_takeWhile (p : Descendant → Bool) (l : List Descendant) :
    ∀ i : Nat, l.findIdx? p i = none → l.takeWhile (fun a => !(p a)) = l := by
  induction l with
  | nil => intro i _; rfl
  | cons x xs ih =>
    intro i h
    rw [List.findIdx?_cons] at h
    by_cases hx : p x = true
    · simp [hx] at h
    · rw [List.takeWhile_cons]
      simp only [Bool.not_eq_true] at hx
      simp only [hx, Bool.not_false, if_pos]
      rw [ih (i + 1) (by simpa [hx] using h)]

theorem findIdx?_eq_some_takeWhile (p : Descendant → Bool) (l : List Descendant) :
    ∀ (i k : Nat), l.findIdx? p i = some k →
      k = i + (l.takeWhile (fun a => !(p a))).length := by
  induction l with
  | nil => intro i k h; simp [List.findIdx?] at h
  | cons x xs ih =>
    intro i k h
    rw [List.findIdx?_cons] at h
    by_cases hx : p x = true
    · rw [if_pos hx] at h
      cases h
      simp [List.takeWhile_cons, hx]
    · simp only [Bool.not_eq_true] at hx
      rw [if_neg (by simp [hx])] at h
      have := ih (i + 1) k h
      rw [List.takeWhile_cons]
      simp only [hx, Bool.not_false, if_pos, List.length_cons]
      omega

/-- **C3**: registering a new non-null element without an explicit index
inserts its record immediately before the first existing record that the new
element comes-before (records with a null element never satisfy the
comparator predicate), or appends it at the end when no such record exists;
the result is then reindexed 0..n-1.  The insertion position is characterised
independently of `findIndex` as the length of the longest prefix of records
the new element does *not* precede.  Consequently (third conjunct) three
elements whose visual order is `0 < 1 < 2` converge, registered one at a time
in any of the six call orders, to collection order `[0, 1, 2]` with indices
`[0, 1, 2]`. -/
theorem c3_register_inserts_at_comparator_position (precedes : Nat → Nat → Bool)
    (e : Nat) (pay : Nat) (items : List Descendant)
    (hnp : ∀ d ∈ items, d.element ≠ some e) :
    ((registerDescendant precedes (some e) none pay items).map recordData
      = (items.take ((items.takeWhile
            (fun item => !(elementPrecedes precedes e item))).length)).map recordData
        ++ (some e, pay)
          :: (items.drop ((items.takeWhile
            (fun item => !(elementPrecedes precedes e item))).length)).map recordData) ∧
    PositionalIndex (registerDescendant precedes (some e) none pay items) ∧
    (∀ ord ∈ [[0, 1, 2], [0, 2, 1], [1, 0, 2], [1, 2, 0], [2, 0, 1], [2, 1, 0]],
      (ord.foldl (fun s el => registerDescendant Nat.blt (some el) none 0 s) []).map
        (fun d => (d.element, d.index))
        = [(some 0, 0), (some 1, 1), (some 2, 2)]) := by
  refine ⟨?_, positionalIndex_register precedes e pay items, by decide⟩
  have hfind : items.find? (fun item => item.element == some e) = none := by
    rw [List.find?_eq_none]
    intro x hx
    simpa using hnp x hx
  by_cases hlen : items.length = 0
  · rw [List.length_eq_zero] at hlen
    subst hlen
    rfl
  · have hbranch : registerDescendant precedes (some e) none pay items
        = reindex (match items.findIdx? (elementPrecedes precedes e) with
            | none => items ++ [⟨some e, -1, pay⟩]
            | some index =>
                items.take index ++ ⟨some e, (index : Int), pay⟩ :: items.drop index) := by
      simp [registerDescendant, hlen, hfind]
    cases hidx : items.findIdx? (elementPrecedes precedes e) with
    | none =>
      have htw := findIdx?_eq_none_takeWhile (elementPrecedes precedes e) items 0 hidx
      rw [hbranch, hidx]
      rw [show (reindex (items ++ [(⟨some e, -1, pay⟩ : Descendant)])).map recordData
            = (items ++ [(⟨some e, -1, pay⟩ : Descendant)]).map recordData from
          reindexFrom_map_recordData 0 _]
      rw [htw, List.take_length, List.drop_length]
      simp [recordData]
    | some idx =>
      have hk := findIdx?_eq_some_takeWhile (elementPrecedes precedes e) items 0 idx hidx
      rw [hbranch, hidx]
      rw [show (reindex (items.take idx
              ++ (⟨some e, (idx : Int), pay⟩ : Descendant) :: items.drop idx)).map recordData
            = (items.take idx
              ++ (⟨some e, (idx : Int), pay⟩ : Descendant) :: items.drop idx).map recordData from
          reindexFrom_map_recordData 0 _]
      rw [List.map_append, List.map_cons]
      rw [show idx = (items.takeWhile
          (fun item => !(elementPrecedes precedes e item))).length from by omega]
      rfl

/-- **C3** witness: inserting element `1` (document order `0 < 1 < 2`) into
`[0@0, 2@1]` places it between them, and the result is reindexed `0, 1, 2`. -/
theorem c3_witness :
    ((registerDescendant Nat.blt (some 1) none 9
        [⟨some 0, 0, 0⟩, ⟨some 2, 1, 0⟩]).map recordData
      = [(some 0, 0), (some 1, 9), (some 2, 0)]) ∧
    PositionalIndex (registerDescendant Nat.blt (some 1) none 9
        [⟨some 0, 0, 0⟩, ⟨some 2, 1, 0⟩]) :=
  ⟨((c3_register_inserts_at_comparator_position Nat.blt 1 9
      [⟨some 0, 0, 0⟩, ⟨some 2, 1, 0⟩] (by decide)).1).trans (by decide),
   (c3_register_inserts_at_comparator_position Nat.blt 1 9
      [⟨some 0, 0, 0⟩, ⟨some 2, 1, 0⟩] (by decide)).2.1⟩

/-! ## Lemmas about the navigator -/

theorem handleKeyDown_arrowDown (descendants : List Descendant) (opts : NavOptions)
    (ctrl : Bool)
    (hne : selectableOf descendants opts.filter ≠ [])
    (hvert : opts.orientation = NavOrientation.vertical
      ∨ opts.orientation = NavOrientation.both) :
    handleKeyDown descendants opts ⟨NavKey.arrowDown, ctrl⟩
      = some (getNextOption (selectableOf descendants opts.filter)
          (opts.currentIndex.getD (-1))
          (selectableIndexOf (selectableOf descendants opts.filter) opts.currentIndex)
          opts.rotate) := by
  simp only [handleKeyDown]
  rw [if_neg (by simp [hne]), if_pos hvert]

theorem handleKeyDown_arrowUp (descendants : List Descendant) (opts : NavOptions)
    (ctrl : Bool)
    (hne : selectableOf descendants opts.filter ≠ [])
    (hvert : opts.orientation = NavOrientation.vertical
      ∨ opts.orientation = NavOrientation.both) :
    handleKeyDown descendants opts ⟨NavKey.arrowUp, ctrl⟩
      = some (getPreviousOption (selectableOf descendants opts.filter)
          (opts.currentIndex.getD (-1))
          (selectableIndexOf (selectableOf descendants opts.filter) opts.currentIndex)
          opts.rotate) := by
  simp only [handleKeyDown]
  rw [if_neg (by simp [hne]), if_pos hvert]

theorem handleKeyDown_arrowLeft (descendants : List Descendant) (opts : NavOptions)
    (ctrl : Bool)
    (hne : selectableOf descendants opts.filter ≠ [])
    (hhoriz : opts.orientation = NavOrientation.horizontal
      ∨ opts.orientation = NavOrientation.both) :
    handleKeyDown descendants opts ⟨NavKey.arrowLeft, ctrl⟩
      = some ((if opts.rtl then getNextOption else getPreviousOption)
          (selectableOf descendants opts.filter)
          (opts.currentIndex.getD (-1))
          (selectableIndexOf (selectableOf descendants opts.filter) opts.currentIndex)
          opts.rotate) := by
  simp only [handleKeyDown]
  rw [if_neg (by simp [hne]), if_pos hhoriz]

theorem handleKeyDown_arrowRight (descendants : List Descendant) (opts : NavOptions)
    (ctrl : Bool)
    (hne : selectableOf descendants opts.filter ≠ [])
    (hhoriz : opts.orientation = NavOrientation.horizontal
      ∨ opts.orientation = NavOrientation.both) :
    handleKeyDown descendants opts ⟨NavKey.arrowRight, ctrl⟩
      = some ((if opts.rtl then getPreviousOption else getNextOption)
          (selectableOf descendants opts.filter)
          (opts.currentIndex.getD (-1))
          (selectableIndexOf (selectableOf descendants opts.filter) opts.currentIndex)
          opts.rotate) := by
  simp only [handleKeyDown]
  rw [if_neg (by simp [hne]), if_pos hhoriz]

theorem jsGet_zero (l : List Descendant) (h : l ≠ []) :
    jsGet l 0 = some (getFirstOption l) := by
  have hlen : 0 < l.length := List.length_pos.mpr h
  rw [jsGet, dif_pos (⟨le_refl (0 : Int), by simpa using hlen⟩ :
    (0 : Int) ≤ 0 ∧ (0 : Int).toNat < l.length)]
  match l, h with
  | x :: xs, _ => rfl

theorem jsGet_natCast_last (l : List Descendant) (h : l ≠ []) :
    jsGet l ((l.length - 1 : Nat) : Int) = some (getLastOption l) := by
  have hlen : 0 < l.length := List.length_pos.mpr h
  have hcond : (0 : Int) ≤ ((l.length - 1 : Nat) : Int)
      ∧ ((l.length - 1 : Nat) : Int).toNat < l.length := by
    constructor
    · exact Int.natCast_nonneg _
    · rw [Int.toNat_natCast]
      omega
  rw [jsGet, dif_pos hcond]
  rw [getLastOption, List.getLastD_eq_getLast?, List.getLast?_eq_getLast l h, Option.getD_some]
  rw [List.getLast_eq_get]
  congr 1

theorem getLastOption_eq_getLast (l : List Descendant) (h : l ≠ []) :
    getLastOption l = l.getLast h := by
  rw [getLastOption, List.getLastD_eq_getLast?, List.getLast?_eq_getLast l h, Option.getD_some]

/-- In a collection whose `index` fields are strictly increasing, the search
for the current index finds the last record exactly when the current index is
the last record's `index`. -/
theorem findIdx?_index_getLast (l : List Descendant) :
    ∀ (h : l ≠ []) (hs : l.Pairwise (fun a b => a.index < b.index)) (i : Nat),
      l.findIdx? (fun d => d.index == (l.getLast h).index) i
        = some (i + (l.length - 1)) := by
  induction l with
  | nil => intro h; exact absurd rfl h
  | cons x xs ih =>
    intro h hs i
    cases xs with
    | nil =>
      rw [List.findIdx?_cons]
      simp
    | cons y t =>
      have hxs : (y :: t) ≠ [] := by simp
      have hlt : x.index < ((y :: t).getLast hxs).index :=
        (List.pairwise_cons.mp hs).1 _ (List.getLast_mem hxs)
      rw [List.findIdx?_cons]
      rw [show (x :: y :: t).getLast h = (y :: t).getLast hxs from List.getLast_cons hxs]
      rw [if_neg (by simp only [beq_iff_eq]; omega)]
      rw [ih hxs (List.pairwise_cons.mp hs).2 (i + 1)]
      congr 1
      simp only [List.length_cons]
      omega

/-- **C6**: with the current index equal to the last selectable record's
`index`, ArrowDown under vertical orientation selects the first selectable
record when `rotate` is true; when `rotate` is false it selects the same
(last) record again, provided the selectable subset's `index` fields are
strictly increasing (which makes the last record the unique match of the
current-index lookup — this always holds for a filtered subset of a
collection satisfying `collection[i].index === i`). -/
theorem c6_arrow_down_at_last (descendants : List Descendant)
    (filter : Option (Descendant → Bool)) (rtl ctrl : Bool) (ci : Int)
    (hne : selectableOf descendants filter ≠ [])
    (hlast : ci = (getLastOption (selectableOf descendants filter)).index) :
    (handleKeyDown descendants ⟨some ci, filter, NavOrientation.vertical, true, rtl⟩
        ⟨NavKey.arrowDown, ctrl⟩
      = some (some (getFirstOption (selectableOf descendants filter)))) ∧
    ((selectableOf descendants filter).Pairwise (fun a b => a.index < b.index) →
      handleKeyDown descendants ⟨some ci, filter, NavOrientation.vertical, false, rtl⟩
        ⟨NavKey.arrowDown, ctrl⟩
      = some (some (getLastOption (selectableOf descendants filter)))) := by
  constructor
  · rw [handleKeyDown_arrowDown _ _ _ hne (Or.inl rfl)]
    show some (getNextOption (selectableOf descendants filter) ci
      (selectableIndexOf (selectableOf descendants filter) (some ci)) true) = _
    rw [getNextOption, if_pos (by simpa using hlast)]
    rfl
  · intro hsorted
    rw [handleKeyDown_arrowDown _ _ _ hne (Or.inl rfl)]
    show some (getNextOption (selectableOf descendants filter) ci
      (selectableIndexOf (selectableOf descendants filter) (some ci)) false) = _
    rw [getNextOption, if_pos (by simpa using hlast)]
    show some (jsGet (selectableOf descendants filter)
      (selectableIndexOf (selectableOf descendants filter) (some ci))) = _
    have hidx : selectableIndexOf (selectableOf descendants filter) (some ci)
        = (((selectableOf descendants filter).length - 1 : Nat) : Int) := by
      rw [selectableIndexOf]
      rw [show (fun d : Descendant => d.index == ci)
            = (fun d : Descendant =>
                d.index == ((selectableOf descendants filter).getLast hne).index) from by
          funext d
          rw [hlast, getLastOption_eq_getLast _ hne]]
      rw [findIdx?_index_getLast (selectableOf descendants filter) hne hsorted 0]
      simp
    rw [hidx, jsGet_natCast_last _ hne]

/-- **C6** witness: two records with indices `0, 1`, current index `1`
(the last): ArrowDown selects the first record with `rotate`, the last
record without. -/
theorem c6_witness :
    (handleKeyDown [⟨some 0, 0, 0⟩, ⟨some 1, 1, 0⟩]
        ⟨some 1, none, NavOrientation.vertical, true, false⟩ ⟨NavKey.arrowDown, false⟩
      = some (some (getFirstOption (selectableOf [⟨some 0, 0, 0⟩, ⟨some 1, 1, 0⟩] none)))) ∧
    (handleKeyDown [⟨some 0, 0, 0⟩, ⟨some 1, 1, 0⟩]
        ⟨some 1, none, NavOrientation.vertical, false, false⟩ ⟨NavKey.arrowDown, false⟩
      = some (some (getLastOption (selectableOf [⟨some 0, 0, 0⟩, ⟨some 1, 1, 0⟩] none)))) :=
  ⟨(c6_arrow_down_at_last [⟨some 0, 0, 0⟩, ⟨some 1, 1, 0⟩] none false false 1
      (by decide) (by decide)).1,
   (c6_arrow_down_at_last [⟨some 0, 0, 0⟩, ⟨some 1, 1, 0⟩] none false false 1
      (by decide) (by decide)).2 (by decide)⟩

theorem selectableIndexOf_eq_neg_one (sel : List Descendant) (currentIndex : Option Int)
    (hna : ∀ d ∈ sel, d.index ≠ currentIndex.getD (-1)) :
    selectableIndexOf sel currentIndex = -1 := by
  match currentIndex with
  | none => rfl
  | some ci =>
    rw [selectableIndexOf]
    have hfi : sel.findIdx? (fun d => d.index == ci) = none := by
      rw [List.findIdx?_eq_none_iff]
      intro d hd
      simpa using hna d hd
    rw [hfi]

theorem getFirstOption_mem (l : List Descendant) (h : l ≠ []) :
    getFirstOption l ∈ l := by
  match l, h with
  | x :: xs, _ => exact List.mem_cons_self x xs

/-- **C7** counterexample: two selectable records with indices `0, 1`;
the current index `5` matches neither.  ArrowUp (previous direction,
`rotate = true`) invokes the callback with the *first* record
(position `(-1 - 1 + 2) % 2 = 0`), not with the last one as claimed. -/
theorem c7_counterexample :
    handleKeyDown [⟨some 0, 0, 0⟩, ⟨some 1, 1, 0⟩]
        ⟨some 5, none, NavOrientation.vertical, true, false⟩ ⟨NavKey.arrowUp, false⟩
      = some (some ⟨some 0, 0, 0⟩) ∧
    getLastOption [⟨some 0, 0, 0⟩, ⟨some 1, 1, 0⟩] = ⟨some 1, 1, 0⟩ ∧
    (⟨some 0, 0, 0⟩ : Descendant) ≠ ⟨some 1, 1, 0⟩ := by
  decide

/-- **C7** (amended): when the effective current index (`currentIndex ?? -1`)
equals no selectable record's `index` field, the lookup yields position `-1`
("before the first"): a next-direction key press (ArrowDown, vertical)
selects the first selectable record, as claimed; but a previous-direction key
press (ArrowUp, vertical, `rotate = true`) selects the record at position
`count - 2` — the second-to-last record when at least two records are
selectable — not the last record. -/
theorem c7_not_found_navigation (descendants : List Descendant)
    (filter : Option (Descendant → Bool)) (rtl ctrl : Bool)
    (currentIndex : Option Int)
    (hne : selectableOf descendants filter ≠ [])
    (hna : ∀ d ∈ selectableOf descendants filter,
      d.index ≠ currentIndex.getD (-1)) :
    (handleKeyDown descendants ⟨currentIndex, filter, NavOrientation.vertical, true, rtl⟩
        ⟨NavKey.arrowDown, ctrl⟩
      = some (some (getFirstOption (selectableOf descendants filter)))) ∧
    ∀ h2 : 2 ≤ (selectableOf descendants filter).length,
      handleKeyDown descendants ⟨currentIndex, filter, NavOrientation.vertical, true, rtl⟩
        ⟨NavKey.arrowUp, ctrl⟩
      = some (some ((selectableOf descendants filter).get
          ⟨(selectableOf descendants filter).length - 2, by omega⟩)) := by
  have hsidx := selectableIndexOf_eq_neg_one (selectableOf descendants filter)
    currentIndex hna
  have hlastmem : getLastOption (selectableOf descendants filter)
      ∈ selectableOf descendants filter := by
    rw [getLastOption_eq_getLast _ hne]
    exact List.getLast_mem hne
  constructor
  · rw [handleKeyDown_arrowDown _ _ _ hne (Or.inl rfl)]
    show some (getNextOption (selectableOf descendants filter) (currentIndex.getD (-1))
      (selectableIndexOf (selectableOf descendants filter) currentIndex) true) = _
    rw [getNextOption, if_neg (by
      simp only [beq_iff_eq]
      exact fun hh => hna _ hlastmem hh.symm)]
    have hz : ((-1 : Int) + 1) % ((selectableOf descendants filter).length : Int) = 0 := by
      norm_num
    rw [hsidx, hz, jsGet_zero _ hne]
  · intro h2
    rw [handleKeyDown_arrowUp _ _ _ hne (Or.inl rfl)]
    show some (getPreviousOption (selectableOf descendants filter) (currentIndex.getD (-1))
      (selectableIndexOf (selectableOf descendants filter) currentIndex) true) = _
    rw [getPreviousOption, if_neg (by
      simp only [beq_iff_eq]
      exact fun hh => hna _ (getFirstOption_mem _ hne) hh.symm)]
    have hmod : ((-1 : Int) - 1 + ((selectableOf descendants filter).length : Int))
        % ((selectableOf descendants filter).length : Int)
        = (((selectableOf descendants filter).length - 2 : Nat) : Int) := by
      have harg : ((-1 : Int) - 1 + ((selectableOf descendants filter).length : Int))
          = (((selectableOf descendants filter).length - 2 : Nat) : Int) := by
        omega
      rw [harg]
      apply Int.emod_eq_of_lt (Int.natCast_nonneg _)
      omega
    rw [hsidx, hmod]
    have htn : ((((selectableOf descendants filter).length - 2 : Nat) : Int)).toNat
        = (selectableOf descendants filter).length - 2 := Int.toNat_natCast _
    rw [jsGet, dif_pos ⟨Int.natCast_nonneg _, by rw [htn]; omega⟩]
    congr 1

/-- **C7** witness: two records with indices `0, 1` and current index `5`
(matching neither): ArrowDown selects the first record; ArrowUp selects the
record at position `length - 2 = 0`. -/
theorem c7_witness :
    (handleKeyDown [⟨some 0, 0, 0⟩, ⟨some 1, 1, 0⟩]
        ⟨some 5, none, NavOrientation.vertical, true, false⟩ ⟨NavKey.arrowDown, false⟩
      = some (some (getFirstOption (selectableOf [⟨some 0, 0, 0⟩, ⟨some 1, 1, 0⟩] none)))) ∧
    handleKeyDown [⟨some 0, 0, 0⟩, ⟨some 1, 1, 0⟩]
        ⟨some 5, none, NavOrientation.vertical, true, false⟩ ⟨NavKey.arrowUp, false⟩
      = some (some ((selectableOf [⟨some 0, 0, 0⟩, ⟨some 1, 1, 0⟩] none).get
          ⟨(selectableOf [⟨some 0, 0, 0⟩, ⟨some 1, 1, 0⟩] none).length - 2, by decide⟩)) :=
  ⟨(c7_not_found_navigation [⟨some 0, 0, 0⟩, ⟨some 1, 1, 0⟩] none false false (some 5)
      (by decide) (by decide)).1,
   (c7_not_found_navigation [⟨some 0, 0, 0⟩, ⟨some 1, 1, 0⟩] none false false (some 5)
      (by decide) (by decide)).2 (by decide)⟩

/-- **C8**: under horizontal or both orientation with a non-empty selectable
subset, ArrowLeft and ArrowRight are mirrored by `rtl`: with `rtl` the left
arrow selects the "next" option and the right arrow the "previous" option,
and with `rtl` off the roles are exactly swapped (first two conjuncts state
the mirror symmetry, the last two pin which direction is which). -/
theorem c8_left_right_mirrored_by_rtl (descendants : List Descendant)
    (filter : Option (Descendant → Bool)) (currentIndex : Option Int)
    (orientation : NavOrientation) (rotate ctrl : Bool)
    (hne : selectableOf descendants filter ≠ [])
    (hhoriz : orientation = NavOrientation.horizontal
      ∨ orientation = NavOrientation.both) :
    (handleKeyDown descendants ⟨currentIndex, filter, orientation, rotate, true⟩
        ⟨NavKey.arrowLeft, ctrl⟩
      = handleKeyDown descendants ⟨currentIndex, filter, orientation, rotate, false⟩
        ⟨NavKey.arrowRight, ctrl⟩) ∧
    (handleKeyDown descendants ⟨currentIndex, filter, orientation, rotate, true⟩
        ⟨NavKey.arrowRight, ctrl⟩
      = handleKeyDown descendants ⟨currentIndex, filter, orientation, rotate, false⟩
        ⟨NavKey.arrowLeft, ctrl⟩) ∧
    (handleKeyDown descendants ⟨currentIndex, filter, orientation, rotate, true⟩
        ⟨NavKey.arrowLeft, ctrl⟩
      = some (getNextOption (selectableOf descendants filter) (currentIndex.getD (-1))
          (selectableIndexOf (selectableOf descendants filter) currentIndex) rotate)) ∧
    (handleKeyDown descendants ⟨currentIndex, filter, orientation, rotate, false⟩
        ⟨NavKey.arrowLeft, ctrl⟩
      = some (getPreviousOption (selectableOf descendants filter) (currentIndex.getD (-1))
          (selectableIndexOf (selectableOf descendants filter) currentIndex) rotate)) := by
  have hlT : handleKeyDown descendants ⟨currentIndex, filter, orientation, rotate, true⟩
      ⟨NavKey.arrowLeft, ctrl⟩
      = some (getNextOption (selectableOf descendants filter) (currentIndex.getD (-1))
        (selectableIndexOf (selectableOf descendants filter) currentIndex) rotate) :=
    handleKeyDown_arrowLeft descendants ⟨currentIndex, filter, orientation, rotate, true⟩
      ctrl hne hhoriz
  have hlF : handleKeyDown descendants ⟨currentIndex, filter, orientation, rotate, false⟩
      ⟨NavKey.arrowLeft, ctrl⟩
      = some (getPreviousOption (selectableOf descendants filter) (currentIndex.getD (-1))
        (selectableIndexOf (selectableOf descendants filter) currentIndex) rotate) :=
    handleKeyDown_arrowLeft descendants ⟨currentIndex, filter, orientation, rotate, false⟩
      ctrl hne hhoriz
  have hrT : handleKeyDown descendants ⟨currentIndex, filter, orientation, rotate, true⟩
      ⟨NavKey.arrowRight, ctrl⟩
      = some (getPreviousOption (selectableOf descendants filter) (currentIndex.getD (-1))
        (selectableIndexOf (selectableOf descendants filter) currentIndex) rotate) :=
    handleKeyDown_arrowRight descendants ⟨currentIndex, filter, orientation, rotate, true⟩
      ctrl hne hhoriz
  have hrF : handleKeyDown descendants ⟨currentIndex, filter, orientation, rotate, false⟩
      ⟨NavKey.arrowRight, ctrl⟩
      = some (getNextOption (selectableOf descendants filter) (currentIndex.getD (-1))
        (selectableIndexOf (selectableOf descendants filter) currentIndex) rotate) :=
    handleKeyDown_arrowRight descendants ⟨currentIndex, filter, orientation, rotate, false⟩
      ctrl hne hhoriz
  exact ⟨hlT.trans hrF.symm, hrT.trans hlF.symm, hlT, hlF⟩

/-- **C8** witness: with two records under horizontal orientation, ArrowLeft
in RTL mode selects the same option as ArrowRight in LTR mode. -/
theorem c8_witness :
    handleKeyDown [⟨some 0, 0, 0⟩, ⟨some 1, 1, 0⟩]
        ⟨some 0, none, NavOrientation.horizontal, true, true⟩ ⟨NavKey.arrowLeft, false⟩
      = handleKeyDown [⟨some 0, 0, 0⟩, ⟨some 1, 1, 0⟩]
        ⟨some 0, none, NavOrientation.horizontal, true, false⟩ ⟨NavKey.arrowRight, false⟩ :=
  (c8_left_right_mirrored_by_rtl [⟨some 0, 0, 0⟩, ⟨some 1, 1, 0⟩] none (some 0)
    NavOrientation.horizontal true false (by decide) (Or.inl rfl)).1
